import Mathlib

/-!
# Formal model of the liquidity-tracker backend

A shallow embedding of the Python backend of `liquidity-tracker`:
fetch adapters (`fetch_nyfed.py`, `fetch_fred.py`), the date-bucketed
merge, the upsert engines (`update_daily.py`, `update_weekly.py`) and
the chunked backfill driver (`backfill.py`), together with theorems
settling the specification claims.

Dates are modelled as ISO `YYYY-MM-DD` strings ordered lexicographically
on their character lists (SQLite compares `TEXT` columns
lexicographically, which agrees with chronological order on ISO dates).
Numeric readings are modelled as rationals; Python `None` becomes
`Option.none`, and Python truthiness on an optional number (`if x` is
false for both `None` and `0.0`) is modelled explicitly.  SQLite tables
are modelled as lists of rows: `INSERT` appends, `UPDATE ... WHERE
date = ?` rewrites every row whose key matches, and `SELECT ... WHERE
date = ?` returns the first matching row.
-/

namespace LiquidityTracker

/-- Python truthiness of an optional numeric value: `None` and `0` are
falsy, every other number is truthy. -/
def truthyQ (x : Option ℚ) : Bool :=
  match x with
  | none => false
  | some v => v != 0

/-- Python truthiness of an optional string: `None` and `""` are falsy. -/
def truthyS (x : Option String) : Bool :=
  match x with
  | none => false
  | some s => s != ""

/-- Strict lexicographic comparison of date strings (SQLite `date < ?`
on `TEXT` columns). -/
def dateLtb (a b : String) : Bool := decide (a.data < b.data)

/-- Non-strict lexicographic comparison of date strings (used by
`sorted(...)`). -/
def dateLeb (a b : String) : Bool := decide (a.data ≤ b.data)

/-! ## Calendar helpers (`update_daily.py`)

`datetime.strptime(date_str, "%Y-%m-%d")` and
`calendar.monthrange(year, month)[1]`.
-/

/-- Gregorian leap-year rule, as used by `calendar.monthrange`. -/
def isLeapYear (y : Nat) : Bool :=
  y % 4 == 0 && (y % 100 != 0 || y % 400 == 0)

/-- `calendar.monthrange(y, m)[1]`: the number of days in month `m` of
year `y`. -/
def monthrange (y m : Nat) : Nat :=
  if m = 2 then (if isLeapYear y then 29 else 28)
  else if m = 4 ∨ m = 6 ∨ m = 9 ∨ m = 11 then 30
  else 31

/-- Reads a non-empty all-digit character list as a decimal number. -/
def digits? (s : List Char) : Option Nat :=
  if !s.isEmpty && s.all Char.isDigit then
    some (s.foldl (fun n c => 10 * n + (c.toNat - 48)) 0)
  else none

/-- Splits a character list at `'-'` separators (Python
`str.split("-")` semantics, so `"a-"` splits into `["a", ""]`). -/
def splitDash (s : List Char) : List (List Char) :=
  s.foldr (fun c acc =>
    if c = '-' then [] :: acc
    else match acc with
      | [] => [[c]]
      | g :: gs => (c :: g) :: gs) [[]]

/-- `datetime.strptime(s, "%Y-%m-%d")`, returning the
`(year, month, day)` triple on success and `none` where Python raises
`ValueError`: the three dash-separated fields must be decimal digit
runs of the lengths the directives accept, and the triple must be a
real calendar date (month in 1..12, day in 1..`monthrange`, year in
`datetime`'s 1..9999 range). -/
def strptimeYmd (s : String) : Option (Nat × Nat × Nat) :=
  match splitDash s.data with
  | [ys, ms, ds] =>
    match digits? ys, digits? ms, digits? ds with
    | some y, some m, some d =>
      if ys.length ≤ 4 ∧ ms.length ≤ 2 ∧ ds.length ≤ 2
          ∧ 1 ≤ y ∧ y ≤ 9999 ∧ 1 ≤ m ∧ m ≤ 12 ∧ 1 ≤ d ∧ d ≤ monthrange y m
      then some (y, m, d) else none
    | _, _, _ => none
  | _ => none

/-- `update_daily.is_quarter_end`: true iff the date parses and is the
last day of March, June, September or December (`ValueError` is caught
and yields `False`). -/
def is_quarter_end (date_str : String) : Bool :=
  match strptimeYmd date_str with
  | none => false
  | some (y, m, d) =>
    if m = 3 ∨ m = 6 ∨ m = 9 ∨ m = 12 then d == monthrange y m
    else false

/-- `update_daily.is_month_end`: true iff the date parses and is the
last day of its month. -/
def is_month_end (date_str : String) : Bool :=
  match strptimeYmd date_str with
  | none => false
  | some (y, m, d) => d == monthrange y m

/-! ## Python dict-by-date mappings

The adapters build `dict[str, float]` mappings; a mapping is modelled
as an association list in insertion order, assignment replacing the
existing binding in place, lookup (`dict.get`) taking the unique
binding. -/

/-- `m[k] = v` on a Python dict. -/
def dictInsert (m : List (String × ℚ)) (k : String) (v : ℚ) : List (String × ℚ) :=
  if (m.find? (fun kv => kv.1 == k)).isSome then
    m.map (fun kv => if kv.1 = k then (k, v) else kv)
  else m ++ [(k, v)]

/-- `m.get(k)` on a Python dict: the bound value, else `None`. -/
def lookupVal (m : List (String × ℚ)) (d : String) : Option ℚ :=
  (m.find? (fun kv => kv.1 == d)).map (fun kv => kv.2)

/-- `sorted(set(keys))`: the distinct keys in ascending order. -/
def sortedDates (keys : List String) : List String :=
  List.insertionSort (fun a b => dateLeb a b) keys.dedup

/-! ## NY Fed fetch adapters (`fetch_nyfed.py`)

The HTTP round-trip (`session.get` + `raise_for_status` + `json()` +
response-shape extraction) is modelled as a value of
`Except Unit (List NYFedRawRecord)`: `.error` is a raised
`requests.exceptions.RequestException` (network, non-2xx or parse
failure), `.ok` the list of raw per-observation JSON objects of the
series, each carrying the optional keys the adapters read. -/

/-- A raw NY Fed JSON observation; `Option` fields model `dict.get` on
keys that may be absent. -/
structure NYFedRawRecord where
  effectiveDate : Option String
  percentRate : Option ℚ
  opDate : Option String
  operationDate : Option String
  totalAmtAccepted : Option ℚ
deriving DecidableEq

/-- `NYFedAPI.fetch_data`: on a `RequestException` the error is logged
and `[]` is returned; otherwise the extracted record list. -/
def fetch_data (resp : Except Unit (List NYFedRawRecord)) : List NYFedRawRecord :=
  match resp with
  | .error _ => []
  | .ok records => records

/-- `NYFedAPI.fetch_sofr`: keep records with a truthy `effectiveDate`
and a non-`None` `percentRate`. -/
def fetch_sofr (resp : Except Unit (List NYFedRawRecord)) : List (String × ℚ) :=
  (fetch_data resp).foldl (fun result record =>
    match record.effectiveDate, record.percentRate with
    | some date, some rate => if date ≠ "" then dictInsert result date rate else result
    | _, _ => result) []

/-- `NYFedAPI.fetch_effr`: same shape as `fetch_sofr`. -/
def fetch_effr (resp : Except Unit (List NYFedRawRecord)) : List (String × ℚ) :=
  (fetch_data resp).foldl (fun result record =>
    match record.effectiveDate, record.percentRate with
    | some date, some rate => if date ≠ "" then dictInsert result date rate else result
    | _, _ => result) []

/-- `NYFedAPI.fetch_srf`: reads `opDate` / `totalAmtAccepted` and
converts millions to billions. -/
def fetch_srf (resp : Except Unit (List NYFedRawRecord)) : List (String × ℚ) :=
  (fetch_data resp).foldl (fun result record =>
    match record.opDate, record.totalAmtAccepted with
    | some date, some amount =>
      if date ≠ "" then dictInsert result date (amount / 1000) else result
    | _, _ => result) []

/-- `NYFedAPI.fetch_onrrp`: reads `operationDate` / `totalAmtAccepted`
and converts dollars to billions. -/
def fetch_onrrp (resp : Except Unit (List NYFedRawRecord)) : List (String × ℚ) :=
  (fetch_data resp).foldl (fun result record =>
    match record.operationDate, record.totalAmtAccepted with
    | some date, some amount =>
      if date ≠ "" then dictInsert result date (amount / 1000000000) else result
    | _, _ => result) []

/-! ## Composite records and the date-bucketed merges -/

/-- A merged daily record as produced by `fetch_repo_rates`. -/
structure RepoRecord where
  date : String
  sofr : Option ℚ
  effr : Option ℚ
  srf_usage : Option ℚ
  onrrp : Option ℚ
deriving DecidableEq

/-- A merged weekly record as produced by `fetch_fed_weekly`; `tga` is
`none` when the key is absent (`record.get("tga")`). -/
structure FedRecord where
  date : String
  balance_sheet : Option ℚ
  reserves : Option ℚ
  tga : Option ℚ
deriving DecidableEq

/-- Merge step of `fetch_repo_rates` (fetch_nyfed.py lines 181-195):
one record per date in the sorted union of the four mappings' keys. -/
def repoRatesMerge (sofr_data effr_data srf_data onrrp_data : List (String × ℚ)) :
    List RepoRecord :=
  let all_dates := sofr_data.map (fun kv => kv.1) ++ effr_data.map (fun kv => kv.1)
    ++ srf_data.map (fun kv => kv.1) ++ onrrp_data.map (fun kv => kv.1)
  (sortedDates all_dates).map (fun date =>
    { date := date
      sofr := lookupVal sofr_data date
      effr := lookupVal effr_data date
      srf_usage := lookupVal srf_data date
      onrrp := lookupVal onrrp_data date })

/-- Merge step of `fetch_fed_weekly` (fetch_fred.py lines 155-173):
one record per date in the sorted union of the mappings' keys, the TGA
mapping joining the union only when `include_tga`. -/
def fedWeeklyMerge (include_tga : Bool)
    (balance_sheet_data reserves_data tga_data : List (String × ℚ)) :
    List FedRecord :=
  let all_dates := balance_sheet_data.map (fun kv => kv.1)
    ++ reserves_data.map (fun kv => kv.1)
    ++ (if include_tga then tga_data.map (fun kv => kv.1) else [])
  (sortedDates all_dates).map (fun date =>
    { date := date
      balance_sheet := lookupVal balance_sheet_data date
      reserves := lookupVal reserves_data date
      tga := if include_tga then lookupVal tga_data date else none })

/-! ## FRED client (`fetch_fred.py`) -/

/-- The `ValueError` message raised by `FREDAPI.__init__` when no API
key is available. -/
def fredKeyErrorMsg : String :=
  "FRED API key required. Set FRED_API_KEY environment variable or pass api_key parameter.\nGet free API key at: https://fred.stlouisfed.org/docs/api/api_key.html"

/-- `FREDAPI.__init__`: `self.api_key = api_key or os.getenv("FRED_API_KEY")`
(Python `or`, so an empty-string argument falls through to the
environment), raising `ValueError` when the resolved key is falsy.
Returns the resolved key. -/
def FREDAPI_init (api_key env_FRED_API_KEY : Option String) : Except String String :=
  let key := if truthyS api_key then api_key else env_FRED_API_KEY
  if truthyS key then .ok (key.getD "") else .error fredKeyErrorMsg

/-- A raw FRED observation: optional `date` and `value` keys, the value
a string (missing values are the sentinel `"."`). -/
structure FredObs where
  date : Option String
  value : Option String
deriving DecidableEq

/-- `FREDAPI.fetch_series` after a successful `__init__`: on a
`RequestException` the error is logged and `{}` returned; otherwise
observations with a truthy date and a truthy, non-sentinel value are
collected.  `float(value)` is modelled by the uninterpreted string
coercion `parseFloat` (type coercion is out of the modelled core). -/
def fetch_series (parseFloat : String → ℚ)
    (resp : Except Unit (List FredObs)) : List (String × ℚ) :=
  match resp with
  | .error _ => []
  | .ok observations =>
    observations.foldl (fun result obs =>
      match obs.date, obs.value with
      | some date, some value =>
        if date ≠ "" ∧ value ≠ "" ∧ value ≠ "." then
          dictInsert result date (parseFloat value)
        else result
      | _, _ => result) []

/-- `fetch_fed_weekly`: constructs the client (`FREDAPI()` — which may
raise before any request), fetches `WALCL` and `WRESBAL` (plus
`WTREGEN` when `include_tga`) through `http`, and merges by date.  The
second component is the list of series ids actually requested over
HTTP, in order; on a missing key it is empty — no request is ever
issued. -/
def fetch_fed_weekly (parseFloat : String → ℚ) (env_FRED_API_KEY : Option String)
    (include_tga : Bool) (http : String → Except Unit (List FredObs)) :
    Except String (List FedRecord) × List String :=
  match FREDAPI_init none env_FRED_API_KEY with
  | .error e => (.error e, [])
  | .ok _ =>
    let balance_sheet_data := fetch_series parseFloat (http "WALCL")
    let reserves_data := fetch_series parseFloat (http "WRESBAL")
    let tga_data := if include_tga then fetch_series parseFloat (http "WTREGEN") else []
    (.ok (fedWeeklyMerge include_tga balance_sheet_data reserves_data tga_data),
      ["WALCL", "WRESBAL"] ++ (if include_tga then ["WTREGEN"] else []))

/-! ## Daily upsert engine (`update_daily.py`) -/

/-- A row of the `repo_rates` table (the columns this subsystem
writes). -/
structure RepoRow where
  date : String
  sofr : Option ℚ
  effr : Option ℚ
  srf_usage : Option ℚ
  onrrp : Option ℚ
  is_quarter_end : Bool
  is_month_end : Bool
deriving DecidableEq

/-- One iteration of the record loop of `upsert_repo_rates`
(update_daily.py lines 80-127): existence check, calendar flags, then
`UPDATE` (full replace of the mutable columns) or `INSERT`.  Returns
the new table and whether the row already existed. -/
def upsertRepoStep (rows : List RepoRow) (r : RepoRecord) : List RepoRow × Bool :=
  let exist := (rows.find? (fun row => row.date == r.date)).isSome
  let is_qtr_end := is_quarter_end r.date
  let is_mon_end := is_month_end r.date
  if exist then
    (rows.map (fun row =>
      if row.date = r.date then
        { row with sofr := r.sofr, effr := r.effr, srf_usage := r.srf_usage,
                   onrrp := r.onrrp, is_quarter_end := is_qtr_end,
                   is_month_end := is_mon_end }
      else row), true)
  else
    (rows ++ [⟨r.date, r.sofr, r.effr, r.srf_usage, r.onrrp, is_qtr_end, is_mon_end⟩],
      false)

/-- `update_daily.upsert_repo_rates`: when the database file is absent,
print and return `(0, 0)` without touching anything; otherwise process
the batch in order, counting inserts and updates.  Returns the table
together with the `(inserted, updated)` counters. -/
def upsert_repo_rates (dbExists : Bool) (rows : List RepoRow)
    (data : List RepoRecord) : List RepoRow × Nat × Nat :=
  if dbExists then
    data.foldl (fun st r =>
      let step := upsertRepoStep st.1 r
      (step.1, if step.2 then (st.2.1, st.2.2 + 1) else (st.2.1 + 1, st.2.2)))
      (rows, 0, 0)
  else (rows, 0, 0)

/-! ## Weekly upsert engine (`update_weekly.py`) -/

/-- A row of the `fed_weekly` table (the columns this subsystem
writes). -/
structure FedRow where
  date : String
  balance_sheet : Option ℚ
  reserves : Option ℚ
  tga : Option ℚ
  balance_sheet_change : Option ℚ
  reserves_change : Option ℚ
deriving DecidableEq

/-- `SELECT ... FROM fed_weekly WHERE date < ? ORDER BY date DESC
LIMIT 1`: the stored row with the greatest date strictly below `d`. -/
def prevRow (rows : List FedRow) (d : String) : Option FedRow :=
  rows.foldl (fun acc row =>
    if dateLtb row.date d then
      match acc with
      | none => some row
      | some best => if dateLtb best.date row.date then some row else some best
    else acc) none

/-- `SELECT ... FROM fed_weekly WHERE date = ?` + `fetchone()`. -/
def lookupRow (rows : List FedRow) (d : String) : Option FedRow :=
  rows.find? (fun row => row.date == d)

/-- `(curr - prev) if (curr and prev) else None`: Python truthiness, so
the difference is produced only when both values are non-`None` and
non-zero. -/
def changeIfTruthy (curr prev : Option ℚ) : Option ℚ :=
  match curr, prev with
  | some c, some p => if c ≠ 0 ∧ p ≠ 0 then some (c - p) else none
  | _, _ => none

/-- `update_weekly.calculate_weekly_changes` (lines 38-76): compare the
row at `date` with the nearest strictly-earlier stored row; `(None,
None)` when either query comes back empty. -/
def calculate_weekly_changes (rows : List FedRow) (date : String) :
    Option ℚ × Option ℚ :=
  match prevRow rows date with
  | none => (none, none)
  | some prev_week =>
    match lookupRow rows date with
    | none => (none, none)
    | some curr_week =>
      (changeIfTruthy curr_week.balance_sheet prev_week.balance_sheet,
       changeIfTruthy curr_week.reserves prev_week.reserves)

/-- The raw-value write of one `upsert_fed_weekly` iteration: `UPDATE`
of the three raw columns (the delta columns are untouched) when a row
for the date exists, else `INSERT` (delta columns `NULL`). -/
def writeRawValues (rows : List FedRow) (r : FedRecord) : List FedRow :=
  if (lookupRow rows r.date).isSome then
    rows.map (fun row =>
      if row.date = r.date then
        { row with balance_sheet := r.balance_sheet, reserves := r.reserves,
                   tga := r.tga }
      else row)
  else
    rows ++ [⟨r.date, r.balance_sheet, r.reserves, r.tga, none, none⟩]

/-- One iteration of the record loop of `upsert_fed_weekly`
(update_weekly.py lines 101-154): existence check, raw-value write,
then `calculate_weekly_changes`; the delta `UPDATE` runs only when at
least one change is not `None`.  Returns the new table and whether the
row already existed. -/
def upsertFedStep (rows : List FedRow) (r : FedRecord) : List FedRow × Bool :=
  let exist := (lookupRow rows r.date).isSome
  let rows1 := writeRawValues rows r
  let changes := calculate_weekly_changes rows1 r.date
  let rows2 :=
    if changes.1.isSome ∨ changes.2.isSome then
      rows1.map (fun row =>
        if row.date = r.date then
          { row with balance_sheet_change := changes.1,
                     reserves_change := changes.2 }
        else row)
    else rows1
  (rows2, exist)

/-- `update_weekly.upsert_fed_weekly`: when the database file is
absent, print and return `(0, 0)` without touching anything; otherwise
process the batch in order, counting inserts and updates. -/
def upsert_fed_weekly (dbExists : Bool) (rows : List FedRow)
    (data : List FedRecord) : List FedRow × Nat × Nat :=
  if dbExists then
    data.foldl (fun st r =>
      let step := upsertFedStep st.1 r
      (step.1, if step.2 then (st.2.1, st.2.2 + 1) else (st.2.1 + 1, st.2.2)))
      (rows, 0, 0)
  else (rows, 0, 0)

/-- `update_weekly.main`: fetch via FRED, catching the `ValueError` of
a missing key with remediation guidance and exit code 1; bail out on an
empty result; otherwise upsert and print the summary.  Dates are fixed
by the `--weeks` lookback and elided.  Returns the process exit code
and the printed lines. -/
def update_weekly_main (parseFloat : String → ℚ)
    (env_FRED_API_KEY : Option String)
    (http : String → Except Unit (List FredObs))
    (dbExists : Bool) (rows : List FedRow) : Nat × List String :=
  match fetch_fed_weekly parseFloat env_FRED_API_KEY false http with
  | (.error e, _) =>
    (1, ["✗ Error: " ++ e,
         "FRED API key required:",
         "1. Get free API key: https://fred.stlouisfed.org/docs/api/api_key.html",
         "2. Set environment variable: export FRED_API_KEY=your_key_here"])
  | (.ok data, _) =>
    if data.isEmpty then (1, ["✗ No data fetched"])
    else
      let result := upsert_fed_weekly dbExists rows data
      (0, ["Update complete:",
           "  Inserted: " ++ toString result.2.1 ++ " records",
           "  Updated: " ++ toString result.2.2 ++ " records",
           "  Total processed: " ++ toString data.length ++ " records"])

/-! ## Chunked backfill driver (`backfill.py`, `backfill_in_chunks`)

The date arithmetic of the chunk loop (`datetime` plus `timedelta`) is
modelled on `Int` day numbers: `current + timedelta(days=W)` is
`current + W`.  The loop body is

    while current <= end:
        chunk_end = min(current + timedelta(days=chunk_days), end)
        ... fetch / upsert [current, chunk_end] ...
        current = chunk_end + timedelta(days=1)

`fetch_func` may raise (`.error`), and so may `upsert_func`; both
failures are caught per chunk.
-/

/-- The sub-ranges `[current, chunk_end]` iterated by
`backfill_in_chunks` over the inclusive range `[current, endD]` with
chunk width `W` days. -/
def chunkRanges (current endD : Int) (W : Nat) : List (Int × Int) :=
  if h : current ≤ endD then
    (current, min (current + W) endD) ::
      chunkRanges (min (current + W) endD + 1) endD W
  else
    []
termination_by (endD + 1 - current).toNat
decreasing_by
  simp_wf
  omega

/-- The `while` loop of `backfill_in_chunks`: fetch each chunk (a
raised fetch error or an empty result skips the chunk), upsert (a
raised upsert error is logged and its counts dropped), and accumulate
the `(total_inserted, total_updated)` counters. -/
def backfillLoop {α : Type} (fetch : Int → Int → Except Unit (List α))
    (upsert : List α → Except Unit (Nat × Nat))
    (current endD : Int) (W : Nat) (totals : Nat × Nat) : Nat × Nat :=
  if h : current ≤ endD then
    let chunk_end := min (current + W) endD
    let totals1 :=
      match fetch current chunk_end with
      | .error _ => totals
      | .ok data =>
        if data.isEmpty then totals
        else
          match upsert data with
          | .error _ => totals
          | .ok iu => (totals.1 + iu.1, totals.2 + iu.2)
    backfillLoop fetch upsert (chunk_end + 1) endD W totals1
  else totals
termination_by (endD + 1 - current).toNat
decreasing_by
  simp_wf
  omega

/-- The summary `backfill_in_chunks` prints after the loop, whatever
happened inside it. -/
def summaryLines (data_name : String) (totals : Nat × Nat) : List String :=
  [data_name ++ " backfill complete:",
   "  Total inserted: " ++ toString totals.1,
   "  Total updated: " ++ toString totals.2,
   "  Total records: " ++ toString (totals.1 + totals.2)]

/-- `backfill.backfill_in_chunks`: run the chunk loop from `start_date`
and report the cumulative counts with the printed summary. -/
def backfill_in_chunks {α : Type} (fetch : Int → Int → Except Unit (List α))
    (upsert : List α → Except Unit (Nat × Nat))
    (start_date end_date : Int) (W : Nat) (data_name : String) :
    (Nat × Nat) × List String :=
  let totals := backfillLoop fetch upsert start_date end_date W (0, 0)
  (totals, summaryLines data_name totals)

/-- Specification-side description of one chunk's contribution: the
counts of a successful fetch-and-upsert, `(0, 0)` for a chunk whose
fetch raised, fetched nothing, or whose upsert raised. -/
def chunkOutcome {α : Type} (fetch : Int → Int → Except Unit (List α))
    (upsert : List α → Except Unit (Nat × Nat)) (c : Int × Int) : Nat × Nat :=
  match fetch c.1 c.2 with
  | .error _ => (0, 0)
  | .ok data =>
    if data.isEmpty then (0, 0)
    else
      match upsert data with
      | .error _ => (0, 0)
      | .ok iu => iu

/-! ## Helper lemmas -/

theorem upsertFedStep_snd (rows : List FedRow) (r : FedRecord) :
    (upsertFedStep rows r).2 = (lookupRow rows r.date).isSome := rfl

theorem upsertRepoStep_snd (rows : List RepoRow) (q : RepoRecord) :
    (upsertRepoStep rows q).2 =
      (rows.find? (fun row => row.date == q.date)).isSome := by
  simp only [upsertRepoStep]
  split
  · next h => exact h.symm
  · next h => exact (Bool.eq_false_iff.mpr h).symm

theorem map_date_preserved (rows : List FedRow) (f : FedRow → FedRow)
    (hf : ∀ row, (f row).date = row.date) :
    (rows.map f).map FedRow.date = rows.map FedRow.date := by
  rw [List.map_map]
  exact List.map_congr_left fun row _ => hf row

theorem writeRawValues_dates (rows : List FedRow) (r : FedRecord) :
    (writeRawValues rows r).map FedRow.date =
      if (lookupRow rows r.date).isSome then rows.map FedRow.date
      else rows.map FedRow.date ++ [r.date] := by
  unfold writeRawValues
  by_cases hex : (lookupRow rows r.date).isSome
  · rw [if_pos hex, if_pos hex,
      map_date_preserved _ _ (fun row => by by_cases h : row.date = r.date <;> simp [h])]
  · rw [if_neg hex, if_neg hex]
    simp

theorem upsertFedStep_dates (rows : List FedRow) (r : FedRecord) :
    ((upsertFedStep rows r).1).map FedRow.date =
      if (lookupRow rows r.date).isSome then rows.map FedRow.date
      else rows.map FedRow.date ++ [r.date] := by
  rw [← writeRawValues_dates]
  show ((if _ then (writeRawValues rows r).map _ else writeRawValues rows r).map FedRow.date) = _
  split
  · exact map_date_preserved _ _ (fun row => by by_cases h : row.date = r.date <;> simp [h])
  · rfl

theorem map_date_preserved_repo (rows : List RepoRow) (f : RepoRow → RepoRow)
    (hf : ∀ row, (f row).date = row.date) :
    (rows.map f).map RepoRow.date = rows.map RepoRow.date := by
  rw [List.map_map]
  exact List.map_congr_left fun row _ => hf row

theorem upsertRepoStep_dates (rows : List RepoRow) (q : RepoRecord) :
    ((upsertRepoStep rows q).1).map RepoRow.date =
      if (rows.find? (fun row => row.date == q.date)).isSome then rows.map RepoRow.date
      else rows.map RepoRow.date ++ [q.date] := by
  simp only [upsertRepoStep]
  by_cases hex : (rows.find? (fun row => row.date == q.date)).isSome
  · simp only [hex, if_true]
    exact map_date_preserved_repo _ _
      (fun row => by by_cases h : row.date = q.date <;> simp [h])
  · simp [hex]

theorem lookupRow_isSome_iff (rows : List FedRow) (d : String) :
    (lookupRow rows d).isSome ↔ d ∈ rows.map FedRow.date := by
  rw [lookupRow, List.find?_isSome]
  constructor
  · rintro ⟨row, hrow, hd⟩
    exact List.mem_map.mpr ⟨row, hrow, by simpa using hd⟩
  · intro hmem
    obtain ⟨row, hrow, hd⟩ := List.mem_map.mp hmem
    exact ⟨row, hrow, by simp [hd]⟩

/-- Claim C4. -/
theorem upsert_twice_single_row :
    ∀ (fedRows : List FedRow) (r : FedRecord)
      (repoRows : List RepoRow) (q : RepoRecord),
      (∀ row ∈ fedRows, row.date ≠ r.date) →
      (∀ row ∈ repoRows, row.date ≠ q.date) →
      ((upsert_fed_weekly true fedRows [r]).2 = (1, 0) ∧
        (upsert_fed_weekly true (upsert_fed_weekly true fedRows [r]).1 [r]).2 = (0, 1) ∧
        ((upsert_fed_weekly true (upsert_fed_weekly true fedRows [r]).1 [r]).1.countP
          (fun row => row.date == r.date)) = 1) ∧
      ((upsert_repo_rates true repoRows [q]).2 = (1, 0) ∧
        (upsert_repo_rates true (upsert_repo_rates true repoRows [q]).1 [q]).2 = (0, 1) ∧
        ((upsert_repo_rates true (upsert_repo_rates true repoRows [q]).1 [q]).1.countP
          (fun row => row.date == q.date)) = 1) := by
  intro fedRows r repoRows q hfed hrepo
  constructor
  · have h1 : (lookupRow fedRows r.date).isSome = false := by
      have hmem : ¬ r.date ∈ fedRows.map FedRow.date := by
        intro hmem
        obtain ⟨row, hrow, hd⟩ := List.mem_map.mp hmem
        exact hfed row hrow hd
      cases hb : (lookupRow fedRows r.date).isSome
      · rfl
      · exact absurd ((lookupRow_isSome_iff fedRows r.date).mp hb) hmem
    have hdates1 : ((upsertFedStep fedRows r).1).map FedRow.date =
        fedRows.map FedRow.date ++ [r.date] := by
      rw [upsertFedStep_dates, h1]
      simp
    have h2 : (lookupRow (upsertFedStep fedRows r).1 r.date).isSome = true := by
      rw [lookupRow_isSome_iff, hdates1]
      simp
    have hdates2 :
        ((upsertFedStep (upsertFedStep fedRows r).1 r).1).map FedRow.date =
          fedRows.map FedRow.date ++ [r.date] := by
      rw [upsertFedStep_dates, h2]
      simp [hdates1]
    refine ⟨?_, ?_, ?_⟩
    · show (if (lookupRow fedRows r.date).isSome then ((0:Nat), (1:Nat)) else (1, 0)) = (1, 0)
      rw [h1]
      rfl
    · show (if (lookupRow (upsertFedStep fedRows r).1 r.date).isSome
          then ((0:Nat), (1:Nat)) else (1, 0)) = (0, 1)
      rw [h2]
      rfl
    · show ((upsertFedStep (upsertFedStep fedRows r).1 r).1).countP
        (fun row => row.date == r.date) = 1
      have hc : ((upsertFedStep (upsertFedStep fedRows r).1 r).1).countP
          (fun row => row.date == r.date) =
          (((upsertFedStep (upsertFedStep fedRows r).1 r).1).map FedRow.date).countP
            (fun d => d == r.date) := by
        rw [List.countP_map]
        rfl
      rw [hc, hdates2, List.countP_append]
      have hz : (fedRows.map FedRow.date).countP (fun d => d == r.date) = 0 := by
        rw [List.countP_eq_zero]
        intro d hd
        obtain ⟨row, hrow, hd2⟩ := List.mem_map.mp hd
        subst hd2
        simp [hfed row hrow]
      rw [hz]
      simp
  · have h1 : (repoRows.find? (fun row => row.date == q.date)).isSome = false := by
      cases hb : (repoRows.find? (fun row => row.date == q.date)).isSome
      · rfl
      · obtain ⟨row, hrow, hd⟩ := List.find?_isSome.mp hb
        exact absurd (by simpa using hd) (hrepo row hrow)
    have hdates1 : ((upsertRepoStep repoRows q).1).map RepoRow.date =
        repoRows.map RepoRow.date ++ [q.date] := by
      rw [upsertRepoStep_dates, h1]
      simp
    have h2 : ((upsertRepoStep repoRows q).1.find?
        (fun row => row.date == q.date)).isSome = true := by
      rw [List.find?_isSome]
      have hmem : q.date ∈ ((upsertRepoStep repoRows q).1).map RepoRow.date := by
        rw [hdates1]
        simp
      obtain ⟨row, hrow, hd⟩ := List.mem_map.mp hmem
      exact ⟨row, hrow, by simp [hd]⟩
    have hdates2 :
        ((upsertRepoStep (upsertRepoStep repoRows q).1 q).1).map RepoRow.date =
          repoRows.map RepoRow.date ++ [q.date] := by
      rw [upsertRepoStep_dates, h2]
      simp [hdates1]
    refine ⟨?_, ?_, ?_⟩
    · have hs : (upsert_repo_rates true repoRows [q]).2 =
          if (upsertRepoStep repoRows q).2 then ((0:Nat), (1:Nat)) else (1, 0) := rfl
      rw [hs, upsertRepoStep_snd, h1]
      rfl
    · have hs : (upsert_repo_rates true (upsert_repo_rates true repoRows [q]).1 [q]).2 =
          if (upsertRepoStep (upsertRepoStep repoRows q).1 q).2
          then ((0:Nat), (1:Nat)) else (1, 0) := rfl
      rw [hs, upsertRepoStep_snd, h2]
      rfl
    · show ((upsertRepoStep (upsertRepoStep repoRows q).1 q).1).countP
        (fun row => row.date == q.date) = 1
      have hc : ((upsertRepoStep (upsertRepoStep repoRows q).1 q).1).countP
          (fun row => row.date == q.date) =
          (((upsertRepoStep (upsertRepoStep repoRows q).1 q).1).map RepoRow.date).countP
            (fun d => d == q.date) := by
        rw [List.countP_map]
        rfl
      rw [hc, hdates2, List.countP_append]
      have hz : (repoRows.map RepoRow.date).countP (fun d => d == q.date) = 0 := by
        rw [List.countP_eq_zero]
        intro d hd
        obtain ⟨row, hrow, hd2⟩ := List.mem_map.mp hd
        subst hd2
        simp [hrepo row hrow]
      rw [hz]
      simp

/-- Witness for C4 on empty stores. -/
theorem upsert_twice_single_row_witness :
    (upsert_fed_weekly true [] [⟨"2024-01-03", some 1, some 2, none⟩]).2 = (1, 0) ∧
    (upsert_repo_rates true [] [⟨"2024-01-03", some 1, some 2, none, none⟩]).2 = (1, 0) := by
  have h := upsert_twice_single_row [] ⟨"2024-01-03", some 1, some 2, none⟩
    [] ⟨"2024-01-03", some 1, some 2, none, none⟩ (by simp) (by simp)
  exact ⟨h.1.1, h.2.1⟩

/-- Claim C10: with the database file absent, both upsert operations
return `(0, 0)` without raising and without performing any write. -/
theorem upserts_with_missing_db_are_noops :
    ∀ (repoRows : List RepoRow) (repoData : List RepoRecord)
      (fedRows : List FedRow) (fedData : List FedRecord),
      upsert_repo_rates false repoRows repoData = (repoRows, 0, 0) ∧
      upsert_fed_weekly false fedRows fedData = (fedRows, 0, 0) := by
  intro _ _ _ _
  exact ⟨rfl, rfl⟩

/-- Claim C9: a raised `RequestException` (network or parse failure)
makes every fetch adapter return an empty mapping instead of
propagating the exception. -/
theorem adapters_fail_soft_on_request_error :
    ∀ (parseFloat : String → ℚ),
      fetch_data (.error ()) = [] ∧
      fetch_sofr (.error ()) = [] ∧
      fetch_effr (.error ()) = [] ∧
      fetch_srf (.error ()) = [] ∧
      fetch_onrrp (.error ()) = [] ∧
      fetch_series parseFloat (.error ()) = [] := by
  intro _
  exact ⟨rfl, rfl, rfl, rfl, rfl, rfl⟩

/-- Claim C7: with the FRED API key absent from both the constructor
argument and the environment, the weekly fetch fails with the
`ValueError` message before issuing any HTTP request (empty request
log, for every oracle), and the driver exits with status 1 printing a
remediation line that mentions `FRED_API_KEY`. -/
theorem missing_fred_key_fails_before_http :
    ∀ (parseFloat : String → ℚ) (include_tga : Bool)
      (http : String → Except Unit (List FredObs))
      (dbExists : Bool) (rows : List FedRow),
      fetch_fed_weekly parseFloat none include_tga http =
        (.error fredKeyErrorMsg, []) ∧
      "FRED_API_KEY".data <:+: fredKeyErrorMsg.data ∧
      (update_weekly_main parseFloat none http dbExists rows).1 = 1 ∧
      ∃ line ∈ (update_weekly_main parseFloat none http dbExists rows).2,
        "FRED_API_KEY".data <:+: line.data := by
  intro parseFloat include_tga http dbExists rows
  refine ⟨rfl, by decide, rfl,
    "2. Set environment variable: export FRED_API_KEY=your_key_here", ?_, by decide⟩
  simp [update_weekly_main, fetch_fed_weekly, FREDAPI_init, truthyS]

/-- Claim C5: for every date string accepted by `strptime`, quarter-end
and month-end flags are exactly as the calendar dictates, quarter-end
implies month-end, and the flags stored by `upsert_repo_rates` are a
function of the record's date only, never of the fetched payload. -/
theorem period_end_flags_correct :
    ∀ (s : String) (y m d : Nat), strptimeYmd s = some (y, m, d) →
      ((m = 3 ∨ m = 6 ∨ m = 9 ∨ m = 12) ∧ d = monthrange y m →
        is_quarter_end s = true ∧ is_month_end s = true) ∧
      (¬(m = 3 ∨ m = 6 ∨ m = 9 ∨ m = 12) ∧ d = monthrange y m →
        is_quarter_end s = false ∧ is_month_end s = true) ∧
      (d ≠ monthrange y m →
        is_quarter_end s = false ∧ is_month_end s = false) ∧
      (is_quarter_end s = true → is_month_end s = true) ∧
      (∀ (rows : List RepoRow) (r : RepoRecord), r.date = s →
        ∀ row ∈ (upsert_repo_rates true rows [r]).1, row.date = s →
          row.is_quarter_end = is_quarter_end s ∧
          row.is_month_end = is_month_end s) := by
  intro s y m d hparse
  have hq : is_quarter_end s =
      (if m = 3 ∨ m = 6 ∨ m = 9 ∨ m = 12 then d == monthrange y m else false) := by
    simp [is_quarter_end, hparse]
  have hm : is_month_end s = (d == monthrange y m) := by
    simp [is_month_end, hparse]
  refine ⟨?_, ?_, ?_, ?_, ?_⟩
  · rintro ⟨hq4, hd⟩
    rw [hq, hm, if_pos hq4]
    simp [hd]
  · rintro ⟨hq4, hd⟩
    rw [hq, hm, if_neg hq4]
    simp [hd]
  · intro hd
    rw [hq, hm]
    constructor
    · split <;> simp [hd]
    · simp [hd]
  · intro hqt
    rw [hq] at hqt
    rw [hm]
    by_cases h4 : m = 3 ∨ m = 6 ∨ m = 9 ∨ m = 12
    · rw [if_pos h4] at hqt
      exact hqt
    · rw [if_neg h4] at hqt
      exact absurd hqt (by simp)
  · intro rows r hr row hrow hrowdate
    subst hr
    have hb : (upsert_repo_rates true rows [r]).1 = (upsertRepoStep rows r).1 := by
      simp [upsert_repo_rates]
    rw [hb] at hrow
    unfold upsertRepoStep at hrow
    by_cases hex : (rows.find? (fun row => row.date == r.date)).isSome
    · rw [if_pos hex] at hrow
      simp only [List.mem_map] at hrow
      obtain ⟨orig, horig, heq⟩ := hrow
      by_cases hd0 : orig.date = r.date
      · rw [if_pos hd0] at heq
        subst heq
        exact ⟨rfl, rfl⟩
      · rw [if_neg hd0] at heq
        subst heq
        exact absurd hrowdate hd0
    · rw [if_neg hex] at hrow
      rcases List.mem_append.mp hrow with hin | hin
      · exfalso
        apply hex
        rw [List.find?_isSome]
        exact ⟨row, hin, by simp [hrowdate]⟩
      · simp only [List.mem_singleton] at hin
        subst hin
        exact ⟨rfl, rfl⟩

/-- Witness for C5 at `2024-03-31`. -/
theorem period_end_flags_correct_witness :
    strptimeYmd "2024-03-31" = some (2024, 3, 31) ∧
    (is_quarter_end "2024-03-31" = true ∧ is_month_end "2024-03-31" = true) := by
  have h := period_end_flags_correct "2024-03-31" 2024 3 31 (by decide)
  exact ⟨by decide, h.1 ⟨by decide, by decide⟩⟩

theorem sortedDates_perm (keys : List String) :
    (sortedDates keys).Perm keys.dedup :=
  List.perm_insertionSort _ _

theorem sortedDates_nodup (keys : List String) : (sortedDates keys).Nodup :=
  (sortedDates_perm keys).nodup_iff.mpr (List.nodup_dedup keys)

theorem sortedDates_mem (keys : List String) (d : String) :
    d ∈ sortedDates keys ↔ d ∈ keys :=
  (sortedDates_perm keys).mem_iff.trans List.mem_dedup

theorem sortedDates_sorted (keys : List String) :
    List.Sorted (fun a b : String => a.data ≤ b.data) (sortedDates keys) := by
  have htot : IsTotal String (fun a b => dateLeb a b = true) :=
    ⟨fun a b => by
      simp only [dateLeb, decide_eq_true_eq]
      exact le_total a.data b.data⟩
  have htrans : IsTrans String (fun a b => dateLeb a b = true) :=
    ⟨fun a b c hab hbc => by
      simp only [dateLeb, decide_eq_true_eq] at *
      exact le_trans hab hbc⟩
  have h := @List.sorted_insertionSort String (fun a b => dateLeb a b = true) _
    htot htrans keys.dedup
  exact h.imp (fun hab => by simpa [dateLeb, decide_eq_true_eq] using hab)

theorem fedWeeklyMerge_dates (incl : Bool) (bs res tga : List (String × ℚ)) :
    (fedWeeklyMerge incl bs res tga).map (fun rec => rec.date) =
      sortedDates (bs.map Prod.fst ++ res.map Prod.fst
        ++ (if incl then tga.map Prod.fst else [])) := by
  simp [fedWeeklyMerge, List.map_map, Function.comp_def]

theorem repoRatesMerge_dates (sofr effr srf onrrp : List (String × ℚ)) :
    (repoRatesMerge sofr effr srf onrrp).map (fun rec => rec.date) =
      sortedDates (sofr.map Prod.fst ++ effr.map Prod.fst
        ++ srf.map Prod.fst ++ onrrp.map Prod.fst) := by
  simp [repoRatesMerge, List.map_map, Function.comp_def]

/-- Claim C6: both merge steps are outer joins over date: one composite
record per date in the union of the source mappings' keys, in ascending
order without duplicates, each field the source's value for that date
or null when absent — including the spec's three-mapping example. -/
theorem merge_is_outer_join :
    (∀ (incl : Bool) (bs res tga : List (String × ℚ)),
      ((fedWeeklyMerge incl bs res tga).map (fun rec => rec.date)).Nodup ∧
      List.Sorted (fun a b : String => a.data ≤ b.data)
        ((fedWeeklyMerge incl bs res tga).map (fun rec => rec.date)) ∧
      (∀ d, d ∈ (fedWeeklyMerge incl bs res tga).map (fun rec => rec.date) ↔
        d ∈ bs.map Prod.fst ++ res.map Prod.fst
          ++ (if incl then tga.map Prod.fst else [])) ∧
      (∀ rec ∈ fedWeeklyMerge incl bs res tga,
        rec.balance_sheet = lookupVal bs rec.date ∧
        rec.reserves = lookupVal res rec.date ∧
        rec.tga = (if incl then lookupVal tga rec.date else none))) ∧
    (∀ (sofr effr srf onrrp : List (String × ℚ)),
      ((repoRatesMerge sofr effr srf onrrp).map (fun rec => rec.date)).Nodup ∧
      List.Sorted (fun a b : String => a.data ≤ b.data)
        ((repoRatesMerge sofr effr srf onrrp).map (fun rec => rec.date)) ∧
      (∀ d, d ∈ (repoRatesMerge sofr effr srf onrrp).map (fun rec => rec.date) ↔
        d ∈ sofr.map Prod.fst ++ effr.map Prod.fst
          ++ srf.map Prod.fst ++ onrrp.map Prod.fst) ∧
      (∀ rec ∈ repoRatesMerge sofr effr srf onrrp,
        rec.sofr = lookupVal sofr rec.date ∧
        rec.effr = lookupVal effr rec.date ∧
        rec.srf_usage = lookupVal srf rec.date ∧
        rec.onrrp = lookupVal onrrp rec.date)) ∧
    fedWeeklyMerge false [("2024-01-01", 1)] [("2024-01-02", 2)] [] =
      [⟨"2024-01-01", some 1, none, none⟩, ⟨"2024-01-02", none, some 2, none⟩] := by
  refine ⟨?_, ?_, by decide⟩
  · intro incl bs res tga
    rw [fedWeeklyMerge_dates]
    refine ⟨sortedDates_nodup _, sortedDates_sorted _, fun d => sortedDates_mem _ d, ?_⟩
    intro rec hrec
    obtain ⟨d, hd, rfl⟩ := List.mem_map.mp hrec
    exact ⟨rfl, rfl, rfl⟩
  · intro sofr effr srf onrrp
    rw [repoRatesMerge_dates]
    refine ⟨sortedDates_nodup _, sortedDates_sorted _, fun d => sortedDates_mem _ d, ?_⟩
    intro rec hrec
    obtain ⟨d, hd, rfl⟩ := List.mem_map.mp hrec
    exact ⟨rfl, rfl, rfl, rfl⟩

theorem chunkRanges_head (c B : Int) (W : Nat) (x : Int × Int) (tl : List (Int × Int))
    (h : chunkRanges c B W = x :: tl) : x = (c, min (c + W) B) := by
  rw [chunkRanges] at h
  split at h
  · exact (List.cons.injEq _ _ _ _ ▸ h).1.symm
  · exact absurd h (by simp)

theorem chunkRanges_count (d : Int) :
    ∀ (c B : Int) (W : Nat),
      (chunkRanges c B W).countP (fun p => decide (p.1 ≤ d ∧ d ≤ p.2)) =
        if c ≤ d ∧ d ≤ B then 1 else 0 := by
  intro c B W
  induction c, B, W using chunkRanges.induct with
  | case1 c B W h ih =>
    rw [chunkRanges, dif_pos h, List.countP_cons, ih]
    simp only [decide_eq_true_eq]
    have hm : c ≤ min (c + (W:Int)) B := by omega
    split_ifs <;> omega
  | case2 c B W h =>
    rw [chunkRanges, dif_neg h, List.countP_nil]
    rw [if_neg (by omega)]

theorem chunkRanges_chain (c B : Int) (W : Nat) :
    List.Chain' (fun p q : Int × Int => q.1 = p.2 + 1) (chunkRanges c B W) := by
  induction c, B, W using chunkRanges.induct with
  | case1 c B W h ih =>
    rw [chunkRanges, dif_pos h]
    cases hcb : chunkRanges (min (c + W) B + 1) B W with
    | nil => simp
    | cons x tl =>
      rw [List.chain'_cons]
      refine ⟨?_, hcb ▸ ih⟩
      have hx := chunkRanges_head _ _ _ _ _ hcb
      rw [hx]
  | case2 c B W h =>
    rw [chunkRanges, dif_neg h]
    exact List.chain'_nil

theorem chunkRanges_bounds (c B : Int) (W : Nat) :
    ∀ p ∈ chunkRanges c B W, c ≤ p.1 ∧ p.1 ≤ p.2 ∧ p.2 ≤ B := by
  induction c, B, W using chunkRanges.induct with
  | case1 c B W h ih =>
    rw [chunkRanges, dif_pos h]
    intro p hp
    rcases List.mem_cons.mp hp with hp | hp
    · subst hp
      refine ⟨le_refl _, ?_, ?_⟩ <;> omega
    · have := ih p hp
      omega
  | case2 c B W h =>
    rw [chunkRanges, dif_neg h]
    intro p hp
    exact absurd hp (List.not_mem_nil p)

/-- Claim C3: for `A ≤ B` and `W ≥ 1`, the sub-ranges iterated by
`backfill_in_chunks` start at `A`, are end-inclusive, consecutive
(each next start is the previous end plus one), stay within `[A, B]`,
and cover every date of `[A, B]` exactly once. -/
theorem chunk_decomposition_partitions (A B : Int) (W : Nat)
    (hAB : A ≤ B) (_hW : 1 ≤ W) :
    (∃ tl, chunkRanges A B W = (A, min (A + W) B) :: tl) ∧
    (∀ p ∈ chunkRanges A B W, A ≤ p.1 ∧ p.1 ≤ p.2 ∧ p.2 ≤ B) ∧
    List.Chain' (fun p q : Int × Int => q.1 = p.2 + 1) (chunkRanges A B W) ∧
    (∀ d : Int, (chunkRanges A B W).countP (fun p => decide (p.1 ≤ d ∧ d ≤ p.2)) =
      if A ≤ d ∧ d ≤ B then 1 else 0) := by
  refine ⟨⟨chunkRanges (min (A + W) B + 1) B W, ?_⟩,
    chunkRanges_bounds A B W, chunkRanges_chain A B W,
    fun d => chunkRanges_count d A B W⟩
  rw [chunkRanges, dif_pos hAB]

/-- Witness for C3 on the range `[0, 4]` with width 2. -/
theorem chunk_decomposition_partitions_witness :
    (0:Int) ≤ 4 ∧ 1 ≤ 2 ∧
      ((∃ tl, chunkRanges 0 4 2 = (0, min ((0:Int) + (2:Nat)) 4) :: tl) ∧
      (∀ p ∈ chunkRanges 0 4 2, 0 ≤ p.1 ∧ p.1 ≤ p.2 ∧ p.2 ≤ 4) ∧
      List.Chain' (fun p q : Int × Int => q.1 = p.2 + 1) (chunkRanges 0 4 2) ∧
      (∀ d : Int, (chunkRanges 0 4 2).countP (fun p => decide (p.1 ≤ d ∧ d ≤ p.2)) =
        if 0 ≤ d ∧ d ≤ 4 then 1 else 0)) :=
  ⟨by decide, by decide, chunk_decomposition_partitions 0 4 2 (by decide) (by decide)⟩

theorem backfillLoop_eq_sum {α : Type} (fetch : Int → Int → Except Unit (List α))
    (upsert : List α → Except Unit (Nat × Nat)) :
    ∀ (c B : Int) (W : Nat) (t : Nat × Nat),
      backfillLoop fetch upsert c B W t =
        (t.1 + (((chunkRanges c B W).map (chunkOutcome fetch upsert)).map Prod.fst).sum,
         t.2 + (((chunkRanges c B W).map (chunkOutcome fetch upsert)).map Prod.snd).sum) := by
  intro c B W
  induction c, B, W using chunkRanges.induct with
  | case1 c B W h ih =>
    intro t
    rw [backfillLoop, dif_pos h, chunkRanges, dif_pos h]
    simp only [List.map_cons, List.sum_cons]
    rw [ih]
    have hco : chunkOutcome fetch upsert (c, min (c + (W:Int)) B) =
        match fetch c (min (c + (W:Int)) B) with
        | .error _ => (0, 0)
        | .ok data =>
          if data.isEmpty then (0, 0)
          else
            match upsert data with
            | .error _ => (0, 0)
            | .ok iu => iu := rfl
    cases hf : fetch c (min (c + (W:Int)) B) with
    | error e =>
      simp only [hco, hf]
      simp [Nat.add_assoc]
    | ok data =>
      by_cases hd : data.isEmpty
      · simp only [hco, hf, hd, if_true]
        simp [Nat.add_assoc]
      · cases hu : upsert data with
        | error e =>
          simp only [hco, hf, hd, if_false]
          simp only [hu]
          simp [Nat.add_assoc]
        | ok iu =>
          simp only [hco, hf, hd, if_false]
          simp only [hu]
          simp [Nat.add_assoc]
  | case2 c B W h =>
    intro t
    rw [backfillLoop, dif_neg h, chunkRanges, dif_neg h]
    simp

/-- Claim C8: a chunk whose fetch raises or yields zero records (or
whose upsert raises) contributes `(0, 0)` and never aborts the
remaining chunks; the cumulative counts equal the sums of the
per-chunk counts of the successful upsert calls, and the summary is
always reported with exactly those totals. -/
theorem backfill_accumulates_and_reports {α : Type}
    (fetch : Int → Int → Except Unit (List α))
    (upsert : List α → Except Unit (Nat × Nat))
    (A B : Int) (W : Nat) (data_name : String) :
    backfill_in_chunks fetch upsert A B W data_name =
      (((((chunkRanges A B W).map (chunkOutcome fetch upsert)).map Prod.fst).sum,
        ((((chunkRanges A B W).map (chunkOutcome fetch upsert)).map Prod.snd).sum)),
       summaryLines data_name
         (((((chunkRanges A B W).map (chunkOutcome fetch upsert)).map Prod.fst).sum,
          ((((chunkRanges A B W).map (chunkOutcome fetch upsert)).map Prod.snd).sum)))) ∧
    (∀ c : Int × Int, fetch c.1 c.2 = .error () ∨ fetch c.1 c.2 = .ok [] →
      chunkOutcome fetch upsert c = (0, 0)) ∧
    (∀ data, upsert data = .error () →
      ∀ c : Int × Int, fetch c.1 c.2 = .ok data →
        chunkOutcome fetch upsert c = (0, 0)) ∧
    ("  Total inserted: " ++
        toString ((((chunkRanges A B W).map (chunkOutcome fetch upsert)).map Prod.fst).sum))
      ∈ (backfill_in_chunks fetch upsert A B W data_name).2 := by
  have hloop := backfillLoop_eq_sum fetch upsert A B W (0, 0)
  have hmain : backfill_in_chunks fetch upsert A B W data_name =
      (backfillLoop fetch upsert A B W (0, 0),
        summaryLines data_name (backfillLoop fetch upsert A B W (0, 0))) := rfl
  simp only [hmain, hloop, Nat.zero_add]
  refine ⟨trivial, ?_, ?_, ?_⟩
  · rintro c (hf | hf) <;> simp [chunkOutcome, hf]
  · intro data hu c hf
    cases data with
    | nil => simp [chunkOutcome, hf]
    | cons x xs => simp [chunkOutcome, hf, hu]
  · simp [summaryLines]

/-- Witness for C8: a chunk whose fetch raises contributes `(0, 0)`. -/
theorem backfill_accumulates_and_reports_witness :
    chunkOutcome (fun _ _ => (.error () : Except Unit (List Unit)))
      (fun _ => .ok (1, 0)) ((0:Int), (0:Int)) = (0, 0) :=
  (backfill_accumulates_and_reports (fun _ _ => .error ())
    (fun _ => .ok (1, 0)) 0 0 1 "x").2.1 (0, 0) (Or.inl rfl)

/-- Witness for C6 at the spec's concrete example. -/
theorem merge_is_outer_join_witness :
    (⟨"2024-01-01", some 1, none, none⟩ : FedRecord).balance_sheet =
      lookupVal [("2024-01-01", 1)] (⟨"2024-01-01", some 1, none, none⟩ : FedRecord).date :=
  ((merge_is_outer_join.1 false [("2024-01-01", 1)] [("2024-01-02", 2)] []).2.2.2
    ⟨"2024-01-01", some 1, none, none⟩ (by decide)).1

theorem find?_map_pred (rows : List FedRow) (g : FedRow → FedRow) (p : FedRow → Bool)
    (hp : ∀ row, p (g row) = p row) :
    (rows.map g).find? p = (rows.find? p).map g := by
  induction rows with
  | nil => rfl
  | cons x xs ih =>
    simp only [List.map_cons]
    cases hpx : p x
    · rw [List.find?_cons_of_neg _ (by rw [hp x, hpx]; exact Bool.false_ne_true),
        List.find?_cons_of_neg _ (by rw [hpx]; exact Bool.false_ne_true), ih]
    · rw [List.find?_cons_of_pos _ (by rw [hp x, hpx]),
        List.find?_cons_of_pos _ hpx]
      rfl

theorem prevRow_append (l : List FedRow) (x : FedRow) (d : String) :
    prevRow (l ++ [x]) d =
      (if dateLtb x.date d then
        match prevRow l d with
        | none => some x
        | some best => if dateLtb best.date x.date then some x else some best
      else prevRow l d) := by
  unfold prevRow
  rw [List.foldl_append]
  rfl

theorem prevRow_map_at (rows : List FedRow) (g : FedRow → FedRow) (d : String)
    (hfix : ∀ row, row.date ≠ d → g row = row)
    (hdate : ∀ row, (g row).date = row.date) :
    prevRow (rows.map g) d = prevRow rows d := by
  unfold prevRow
  rw [List.foldl_map]
  congr 1
  funext acc row
  by_cases hrd : row.date = d
  · have h1 : dateLtb (g row).date d = false := by
      rw [hdate, hrd, dateLtb]
      simp
    have h2 : dateLtb row.date d = false := by
      rw [hrd, dateLtb]
      simp
    rw [h1, h2]
    rfl
  · rw [hfix row hrd]

theorem prevRow_none (rows : List FedRow) (d : String) :
    prevRow rows d = none → ∀ q ∈ rows, dateLtb q.date d = false := by
  induction rows using List.reverseRecOn with
  | nil => intro _ q hq; exact absurd hq (List.not_mem_nil q)
  | append_singleton l x ih =>
    intro h q hq
    rw [prevRow_append] at h
    by_cases hx : dateLtb x.date d
    · rw [if_pos hx] at h
      cases hpl : prevRow l d <;> rw [hpl] at h
      · exact absurd h (by simp)
      · next best =>
        have h2 : (if dateLtb best.date x.date then some x else some best) = none := h
        split at h2 <;> exact absurd h2 (by simp)
    · rw [if_neg hx] at h
      rcases List.mem_append.mp hq with hq | hq
      · exact ih h q hq
      · rw [List.mem_singleton.mp hq]
        exact Bool.not_eq_true _ ▸ hx

theorem prevRow_spec (rows : List FedRow) (d : String) :
    ∀ p, prevRow rows d = some p →
      p ∈ rows ∧ dateLtb p.date d = true ∧
      ∀ q ∈ rows, dateLtb q.date d = true → dateLtb p.date q.date = false := by
  induction rows using List.reverseRecOn with
  | nil => intro p hp; exact absurd hp (by simp [prevRow])
  | append_singleton l x ih =>
    intro p hp
    rw [prevRow_append] at hp
    by_cases hx : dateLtb x.date d
    · rw [if_pos hx] at hp
      cases hpl : prevRow l d <;> rw [hpl] at hp
      · -- no earlier row in l: the result is x
        have hpx : p = x := (Option.some.inj hp).symm
        subst hpx
        refine ⟨List.mem_append_right l (List.mem_singleton_self p), hx, ?_⟩
        intro q hq hqd
        rcases List.mem_append.mp hq with hq | hq
        · exact absurd hqd (by simp [prevRow_none l d hpl q hq])
        · rw [List.mem_singleton.mp hq, dateLtb]
          simp
      · next best =>
        obtain ⟨hbmem, hbd, hbmax⟩ := ih best hpl
        have hp2 : (if dateLtb best.date x.date then some x else some best) = some p := hp
        by_cases hbx : dateLtb best.date x.date
        · rw [if_pos hbx] at hp2
          have hpx : p = x := (Option.some.inj hp2).symm
          subst hpx
          refine ⟨List.mem_append_right l (List.mem_singleton_self p), hx, ?_⟩
          intro q hq hqd
          rcases List.mem_append.mp hq with hq | hq
          · -- q ≤ best < x
            have h1 := hbmax q hq hqd
            simp only [dateLtb, decide_eq_true_eq, decide_eq_false_iff_not, not_lt] at *
            exact le_trans h1 (le_of_lt hbx)
          · rw [List.mem_singleton.mp hq, dateLtb]
            simp
        · rw [if_neg hbx] at hp2
          have hpb : p = best := (Option.some.inj hp2).symm
          subst hpb
          refine ⟨List.mem_append_left _ hbmem, hbd, ?_⟩
          intro q hq hqd
          rcases List.mem_append.mp hq with hq | hq
          · exact hbmax q hq hqd
          · rw [List.mem_singleton.mp hq]
            exact Bool.not_eq_true _ ▸ hbx
    · rw [if_neg hx] at hp
      obtain ⟨hbmem, hbd, hbmax⟩ := ih p hp
      refine ⟨List.mem_append_left _ hbmem, hbd, ?_⟩
      intro q hq hqd
      rcases List.mem_append.mp hq with hq | hq
      · exact hbmax q hq hqd
      · rw [List.mem_singleton.mp hq] at hqd
        exact absurd hqd (by simp [hx])

theorem prevRow_writeRawValues (rows : List FedRow) (r : FedRecord) :
    prevRow (writeRawValues rows r) r.date = prevRow rows r.date := by
  unfold writeRawValues
  split
  · exact prevRow_map_at rows _ r.date
      (fun row hrd => if_neg hrd)
      (fun row => by by_cases h : row.date = r.date <;> simp [h])
  · rw [prevRow_append, if_neg (by simp [dateLtb])]

theorem lookupRow_writeRawValues (rows : List FedRow) (r : FedRecord) :
    ∃ curr, lookupRow (writeRawValues rows r) r.date = some curr ∧
      curr.date = r.date ∧
      curr.balance_sheet = r.balance_sheet ∧
      curr.reserves = r.reserves ∧
      curr.balance_sheet_change =
        ((lookupRow rows r.date).bind fun q => q.balance_sheet_change) ∧
      curr.reserves_change =
        ((lookupRow rows r.date).bind fun q => q.reserves_change) := by
  unfold writeRawValues
  by_cases hex : (lookupRow rows r.date).isSome
  · rw [if_pos hex]
    obtain ⟨row0, hrow0⟩ := Option.isSome_iff_exists.mp hex
    have hd0 : row0.date = r.date := by
      have := List.find?_some hrow0
      simpa using this
    have hmap : lookupRow (rows.map (fun row =>
        if row.date = r.date then
          { row with balance_sheet := r.balance_sheet, reserves := r.reserves,
                     tga := r.tga }
        else row)) r.date = (lookupRow rows r.date).map (fun row =>
        if row.date = r.date then
          { row with balance_sheet := r.balance_sheet, reserves := r.reserves,
                     tga := r.tga }
        else row) := by
      unfold lookupRow
      exact find?_map_pred rows _ _
        (fun row => by by_cases h : row.date = r.date <;> simp [h])
    rw [hmap, hrow0]
    refine ⟨_, rfl, ?_⟩
    simp [hd0]
  · rw [if_neg hex]
    have hnone : lookupRow rows r.date = none := Option.not_isSome_iff_eq_none.mp hex
    have happ : lookupRow (rows ++
        [⟨r.date, r.balance_sheet, r.reserves, r.tga, none, none⟩]) r.date =
        some ⟨r.date, r.balance_sheet, r.reserves, r.tga, none, none⟩ := by
      unfold lookupRow at *
      rw [List.find?_append, hnone]
      simp
    rw [happ, hnone]
    exact ⟨_, rfl, rfl, rfl, rfl, rfl, rfl⟩

theorem upsertFedStep_fst (rows : List FedRow) (r : FedRecord) :
    (upsertFedStep rows r).1 =
      (if (calculate_weekly_changes (writeRawValues rows r) r.date).1.isSome ∨
          (calculate_weekly_changes (writeRawValues rows r) r.date).2.isSome then
        (writeRawValues rows r).map (fun row =>
          if row.date = r.date then
            { row with
                balance_sheet_change :=
                  (calculate_weekly_changes (writeRawValues rows r) r.date).1,
                reserves_change :=
                  (calculate_weekly_changes (writeRawValues rows r) r.date).2 }
          else row)
      else writeRawValues rows r) := rfl

theorem upsert_fed_weekly_single_fst (rows : List FedRow) (r : FedRecord) :
    (upsert_fed_weekly true rows [r]).1 = (upsertFedStep rows r).1 := rfl

/-- Claim C1 (amended): when the store has a nearest strictly-earlier
row — the most recent stored row before the record's date, whatever the
gap — and the compared field is non-null *and non-zero* on both the
record and that row (Python truthiness), the delta stored by
`upsert_fed_weekly` is exactly current minus nearest-earlier. -/
theorem weekly_delta_is_nearest_earlier_difference
    (rows : List FedRow) (r : FedRecord) (p : FedRow)
    (hp : prevRow rows r.date = some p) :
    (p ∈ rows ∧ dateLtb p.date r.date = true ∧
      ∀ q ∈ rows, dateLtb q.date r.date = true → dateLtb p.date q.date = false) ∧
    (∀ cb pb : ℚ, r.balance_sheet = some cb → cb ≠ 0 →
      p.balance_sheet = some pb → pb ≠ 0 →
      ∃ row, lookupRow (upsert_fed_weekly true rows [r]).1 r.date = some row ∧
        row.balance_sheet_change = some (cb - pb)) ∧
    (∀ cr pr : ℚ, r.reserves = some cr → cr ≠ 0 →
      p.reserves = some pr → pr ≠ 0 →
      ∃ row, lookupRow (upsert_fed_weekly true rows [r]).1 r.date = some row ∧
        row.reserves_change = some (cr - pr)) := by
  have hprev1 : prevRow (writeRawValues rows r) r.date = some p := by
    rw [prevRow_writeRawValues]
    exact hp
  obtain ⟨curr, hcurr, hcd, hcbs, hcres, hcbc, hcrc⟩ := lookupRow_writeRawValues rows r
  have hcalc : calculate_weekly_changes (writeRawValues rows r) r.date =
      (changeIfTruthy curr.balance_sheet p.balance_sheet,
       changeIfTruthy curr.reserves p.reserves) := by
    unfold calculate_weekly_changes
    rw [hprev1, hcurr]
  have hmaplookup : ∀ ch : Option ℚ × Option ℚ,
      lookupRow ((writeRawValues rows r).map (fun row =>
        if row.date = r.date then
          { row with balance_sheet_change := ch.1, reserves_change := ch.2 }
        else row)) r.date =
      some { curr with balance_sheet_change := ch.1, reserves_change := ch.2 } := by
    intro ch
    unfold lookupRow at *
    rw [find?_map_pred _ _ _
      (fun row => by by_cases h : row.date = r.date <;> simp [h]), hcurr]
    simp [hcd]
  refine ⟨prevRow_spec rows r.date p hp, ?_, ?_⟩
  · intro cb pb hcb hcb0 hpb hpb0
    have hch1 : (calculate_weekly_changes (writeRawValues rows r) r.date).1 =
        some (cb - pb) := by
      rw [hcalc]
      simp [changeIfTruthy, hcbs, hcb, hpb, hcb0, hpb0]
    rw [upsert_fed_weekly_single_fst, upsertFedStep_fst,
      if_pos (Or.inl (by rw [hch1]; rfl))]
    exact ⟨_, hmaplookup _, by simp [hch1]⟩
  · intro cr pr hcr hcr0 hpr hpr0
    have hch2 : (calculate_weekly_changes (writeRawValues rows r) r.date).2 =
        some (cr - pr) := by
      rw [hcalc]
      simp [changeIfTruthy, hcres, hcr, hpr, hcr0, hpr0]
    rw [upsert_fed_weekly_single_fst, upsertFedStep_fst,
      if_pos (Or.inr (by rw [hch2]; rfl))]
    exact ⟨_, hmaplookup _, by simp [hch2]⟩

theorem lookupRow_delta_map (rows : List FedRow) (r : FedRecord) (curr : FedRow)
    (hcurr : lookupRow (writeRawValues rows r) r.date = some curr)
    (hcd : curr.date = r.date) (ch : Option ℚ × Option ℚ) :
    lookupRow ((writeRawValues rows r).map (fun row =>
      if row.date = r.date then
        { row with balance_sheet_change := ch.1, reserves_change := ch.2 }
      else row)) r.date =
    some { curr with balance_sheet_change := ch.1, reserves_change := ch.2 } := by
  unfold lookupRow at *
  rw [find?_map_pred _ _ _
    (fun row => by by_cases h : row.date = r.date <;> simp [h]), hcurr]
  simp [hcd]

/-- Claim C2 (amended): when the delta condition fails for a field the
computed change for that field is null, and it is stored as null
provided the other field's computed change is non-null; when both
computed changes are null the delta `UPDATE` is skipped entirely, so
the delta columns keep their previously stored values — a pre-existing
non-null delta persists instead of being nulled. -/
theorem weekly_delta_null_and_stale (rows : List FedRow) (r : FedRecord) :
    ((prevRow rows r.date = none ∨ r.balance_sheet = none ∨
        (∃ p, prevRow rows r.date = some p ∧ p.balance_sheet = none)) →
      (calculate_weekly_changes (writeRawValues rows r) r.date).1 = none) ∧
    ((prevRow rows r.date = none ∨ r.reserves = none ∨
        (∃ p, prevRow rows r.date = some p ∧ p.reserves = none)) →
      (calculate_weekly_changes (writeRawValues rows r) r.date).2 = none) ∧
    ((calculate_weekly_changes (writeRawValues rows r) r.date).1 = none →
      (calculate_weekly_changes (writeRawValues rows r) r.date).2.isSome →
      ∃ row, lookupRow (upsert_fed_weekly true rows [r]).1 r.date = some row ∧
        row.balance_sheet_change = none) ∧
    ((calculate_weekly_changes (writeRawValues rows r) r.date).2 = none →
      (calculate_weekly_changes (writeRawValues rows r) r.date).1.isSome →
      ∃ row, lookupRow (upsert_fed_weekly true rows [r]).1 r.date = some row ∧
        row.reserves_change = none) ∧
    (calculate_weekly_changes (writeRawValues rows r) r.date = (none, none) →
      ∃ row, lookupRow (upsert_fed_weekly true rows [r]).1 r.date = some row ∧
        row.balance_sheet_change =
          ((lookupRow rows r.date).bind fun q => q.balance_sheet_change) ∧
        row.reserves_change =
          ((lookupRow rows r.date).bind fun q => q.reserves_change)) := by
  obtain ⟨curr, hcurr, hcd, hcbs, hcres, hcbc, hcrc⟩ := lookupRow_writeRawValues rows r
  have hcalcsplit : ∀ p, prevRow rows r.date = some p →
      calculate_weekly_changes (writeRawValues rows r) r.date =
        (changeIfTruthy curr.balance_sheet p.balance_sheet,
         changeIfTruthy curr.reserves p.reserves) := by
    intro p hp
    have hprev1 : prevRow (writeRawValues rows r) r.date = some p := by
      rw [prevRow_writeRawValues]
      exact hp
    unfold calculate_weekly_changes
    rw [hprev1, hcurr]
  have hcalcnone : prevRow rows r.date = none →
      calculate_weekly_changes (writeRawValues rows r) r.date = (none, none) := by
    intro hp
    have hprev1 : prevRow (writeRawValues rows r) r.date = none := by
      rw [prevRow_writeRawValues]
      exact hp
    unfold calculate_weekly_changes
    rw [hprev1]
  refine ⟨?_, ?_, ?_, ?_, ?_⟩
  · rintro (hnone | hbs | ⟨p, hp, hpbs⟩)
    · rw [hcalcnone hnone]
    · cases hpv : prevRow rows r.date with
      | none => rw [hcalcnone hpv]
      | some p =>
        rw [hcalcsplit p hpv]
        simp [changeIfTruthy, hcbs, hbs]
    · rw [hcalcsplit p hp]
      cases hcv : curr.balance_sheet <;> simp [changeIfTruthy, hpbs]
  · rintro (hnone | hres | ⟨p, hp, hpres⟩)
    · rw [hcalcnone hnone]
    · cases hpv : prevRow rows r.date with
      | none => rw [hcalcnone hpv]
      | some p =>
        rw [hcalcsplit p hpv]
        simp [changeIfTruthy, hcres, hres]
    · rw [hcalcsplit p hp]
      cases hcv : curr.reserves <;> simp [changeIfTruthy, hpres]
  · intro h1 h2
    rw [upsert_fed_weekly_single_fst, upsertFedStep_fst, if_pos (Or.inr h2)]
    exact ⟨_, lookupRow_delta_map rows r curr hcurr hcd _, by simp [h1]⟩
  · intro h2 h1
    rw [upsert_fed_weekly_single_fst, upsertFedStep_fst, if_pos (Or.inl h1)]
    exact ⟨_, lookupRow_delta_map rows r curr hcurr hcd _, by simp [h2]⟩
  · intro hboth
    rw [upsert_fed_weekly_single_fst, upsertFedStep_fst,
      if_neg (by rw [hboth]; simp)]
    exact ⟨curr, hcurr, hcbc, hcrc⟩

/-- Witness for C2 at a store whose only row shares the record's date
(no strictly earlier row): both computed changes are null and the
pre-existing delta value persists. -/
theorem weekly_delta_null_and_stale_witness :
    ∃ row, lookupRow (upsert_fed_weekly true
        [⟨"2024-01-08", some 1, some 1, none, some 5, none⟩]
        [⟨"2024-01-08", some 2, some 2, none⟩]).1
        (⟨"2024-01-08", some 2, some 2, none⟩ : FedRecord).date = some row ∧
      row.balance_sheet_change =
        ((lookupRow [⟨"2024-01-08", some 1, some 1, none, some 5, none⟩]
          (⟨"2024-01-08", some 2, some 2, none⟩ : FedRecord).date).bind
            fun q => q.balance_sheet_change) ∧
      row.reserves_change =
        ((lookupRow [⟨"2024-01-08", some 1, some 1, none, some 5, none⟩]
          (⟨"2024-01-08", some 2, some 2, none⟩ : FedRecord).date).bind
            fun q => q.reserves_change) :=
  (weekly_delta_null_and_stale
    [⟨"2024-01-08", some 1, some 1, none, some 5, none⟩]
    ⟨"2024-01-08", some 2, some 2, none⟩).2.2.2.2 (by decide)

/-- Counterexample to C2 as stated: the delta condition fails (no
strictly earlier stored row), the row previously existed with the
non-null delta `5`, and after the upsert the stored delta is still `5`,
not null — the delta `UPDATE` was skipped. -/
theorem weekly_delta_null_claim_counterexample :
    prevRow [⟨"2024-01-08", some 1, some 1, none, some 5, none⟩] "2024-01-08" = none ∧
    (lookupRow (upsert_fed_weekly true
        [⟨"2024-01-08", some 1, some 1, none, some 5, none⟩]
        [⟨"2024-01-08", some 2, some 2, none⟩]).1 "2024-01-08").map
      FedRow.balance_sheet_change = some (some 5) ∧
    some (some (5:ℚ)) ≠ some none :=
  ⟨by decide, by decide, by decide⟩

/-- Witness for C1 (amended) at a two-date store. -/
theorem weekly_delta_is_nearest_earlier_difference_witness :
    ∃ row, lookupRow (upsert_fed_weekly true
        [⟨"2024-01-01", some 100, some 1, none, none, none⟩]
        [⟨"2024-01-08", some 103, some 3, none⟩]).1
        (⟨"2024-01-08", some 103, some 3, none⟩ : FedRecord).date = some row ∧
      row.balance_sheet_change = some ((103:ℚ) - 100) :=
  (weekly_delta_is_nearest_earlier_difference
    [⟨"2024-01-01", some 100, some 1, none, none, none⟩]
    ⟨"2024-01-08", some 103, some 3, none⟩
    ⟨"2024-01-01", some 100, some 1, none, none, none⟩
    (by decide)).2.1 103 100 rfl (by decide) rfl (by decide)

/-- Counterexample to C1 as stated: with a current balance sheet of
`0.0` — non-null — and a nearest earlier value of `100`, the stored
delta is null, not `0 − 100`: the code tests Python truthiness, not
non-nullness. -/
theorem weekly_delta_claim_counterexample :
    prevRow [⟨"2024-01-01", some 100, some 1, none, none, none⟩] "2024-01-08" =
      some ⟨"2024-01-01", some 100, some 1, none, none, none⟩ ∧
    (lookupRow (upsert_fed_weekly true
        [⟨"2024-01-01", some 100, some 1, none, none, none⟩]
        [⟨"2024-01-08", some 0, some 3, none⟩]).1 "2024-01-08").map
      FedRow.balance_sheet_change = some none ∧
    some (none : Option ℚ) ≠ some (some ((0:ℚ) - 100)) :=
  ⟨by decide, by decide, by decide⟩

end LiquidityTracker
